import Mathlib

/-!
Shallow embedding of the whiteboard drawing application
(`src/utils/element.js`, `src/utils/math.js`, `src/store/BoardProvider.js`)
and proofs about its claims.

Modelling conventions:
* JS numbers are modelled by an arbitrary linear ordered field `α`
  (instantiated with `ℚ` when evaluating concrete runs and with `ℝ` for
  the trigonometric claims).  Floating-point rounding is not modelled.
* JS `null`/`undefined` values flowing through fields are modelled with
  `Option`.  Array accesses `a[i]` are modelled by `jsGetElem` (returning
  `none` for out-of-range or negative indices, as JS returns `undefined`).
* Host-environment functions that the repository calls but does not define
  (the `Math` object, `perfect-freehand`'s `getStroke`, the canvas 2D
  context used for text metrics and `isPointInPath`) are bundled in `JsEnv`.
* The `constants` module of the repository is not included in the sources;
  the few constants the modelled code needs are modelled from the spec
  (see the doc comments on `JsEnv` and `DRAW_TOOL_ITEMS`).
* Code paths where the JS program would throw a `TypeError` (destructuring
  `undefined`, reading a property of `null`, spreading `undefined`) are
  modelled with `Except.error`.  A handful of type-confused paths in which
  JS would silently poison values with `undefined`/`NaN` instead of
  throwing (noted branch by branch below) are also modelled as errors;
  no claim in this development depends on those paths.
-/

namespace Whiteboard

/-- The tool kinds of `TOOL_ITEMS`.  Modelled from the spec: the `constants`
module is not among the sources; the spec enumerates freehand (brush), line,
rectangle, circle, arrow, text as element kinds and an eraser tool. -/
inductive ToolItem where
  | BRUSH
  | LINE
  | RECTANGLE
  | CIRCLE
  | ARROW
  | TEXT
  | ERASER
deriving DecidableEq, Repr

/-- The interaction modes of `TOOL_ACTION_TYPES`.  Modelled from the spec:
idle (NONE), drawing, writing text, erasing. -/
inductive ToolActionType where
  | NONE
  | DRAWING
  | WRITING
  | ERASING
deriving DecidableEq, Repr

/-- `DRAW_TOOL_ITEMS`.  Modelled from the spec: on pointer-down the mode
becomes Drawing "if tool is a draw-tool, else Writing"; the draw tools are
the five shape/stroke tools, text being the writing tool. -/
def DRAW_TOOL_ITEMS : List ToolItem :=
  [ToolItem.BRUSH, ToolItem.LINE, ToolItem.RECTANGLE, ToolItem.CIRCLE, ToolItem.ARROW]

/-- One token of the SVG path description built by `getSvgPathFromStroke`.
The source joins the tokens with spaces into one string; number formatting
is host specific, so the embedding keeps the token list itself. -/
inductive SvgTok (α : Type) where
  | M
  | Q
  | Z
  | num (v : α)
deriving DecidableEq, Repr

/-- The options record handed to the rough.js generator
(`{seed, strokeWidth, stroke?, fill?, fillStyle?}`). -/
structure RoughOptions (α : Type) where
  seed : ℤ
  strokeWidth : α
  stroke : Option String
  fill : Option String
  fillStyle : Option String
deriving DecidableEq, Repr

/-- Opaque descriptor for the drawable produced by the rough.js generator
(`gen.line` / `gen.rectangle` / `gen.ellipse` / `gen.linearPath`); rough.js
is an external library, so the descriptor records the constructor and its
arguments. -/
inductive RoughEle (α : Type) where
  | line (x1 y1 x2 y2 : α) (options : RoughOptions α)
  | rectangle (x y width height : α) (options : RoughOptions α)
  | ellipse (cx cy width height : α) (options : RoughOptions α)
  | linearPath (points : List (α × α)) (options : RoughOptions α)
deriving DecidableEq, Repr

/-- The nested `textEle` record of a text element. -/
structure TextEle (α : Type) where
  text : String
  stroke : Option String
  size : Option α
deriving DecidableEq, Repr

/-- A drawing element, one constructor per branch of `createRoughElement`.
Fields mirror exactly the object literal each branch returns.  The text
branch stores its four coordinates verbatim, which may be `null`
(`CHANGE_TEXT` passes `null` for `x2`,`y2`), hence the `Option`s there. -/
inductive Element (α : Type) where
  | brush (id : ℤ) (points : List (α × α)) (path : List (SvgTok α))
      (stroke : Option String) (size : Option α)
  | line (id : ℤ) (x1 y1 x2 y2 : α) (roughEle : RoughEle α)
      (stroke : Option String) (size : Option α)
  | rectangle (id : ℤ) (x1 y1 x2 y2 : α) (roughEle : RoughEle α)
      (stroke : Option String) (fill : Option String) (size : Option α)
  | circle (id : ℤ) (x1 y1 x2 y2 : α) (roughEle : RoughEle α)
      (width height centerX centerY : α)
      (stroke : Option String) (fill : Option String) (size : Option α)
  | arrow (id : ℤ) (x1 y1 x2 y2 : α) (roughEle : RoughEle α)
      (stroke : Option String) (size : Option α)
  | text (id : ℤ) (x1 y1 x2 y2 : Option α) (textEle : TextEle α)
deriving DecidableEq, Repr

namespace Element

variable {α : Type}

/-- JS property access `element.id`. -/
def id : Element α → ℤ
  | .brush i _ _ _ _ => i
  | .line i _ _ _ _ _ _ _ => i
  | .rectangle i _ _ _ _ _ _ _ _ => i
  | .circle i _ _ _ _ _ _ _ _ _ _ _ _ => i
  | .arrow i _ _ _ _ _ _ _ => i
  | .text i _ _ _ _ _ => i

/-- JS property access `element.type`. -/
def type : Element α → ToolItem
  | .brush .. => .BRUSH
  | .line .. => .LINE
  | .rectangle .. => .RECTANGLE
  | .circle .. => .CIRCLE
  | .arrow .. => .ARROW
  | .text .. => .TEXT

/-- JS property access `element.x1` (`none` = `undefined`/`null`). -/
def x1? : Element α → Option α
  | .brush .. => none
  | .line _ a _ _ _ _ _ _ => some a
  | .rectangle _ a _ _ _ _ _ _ _ => some a
  | .circle _ a _ _ _ _ _ _ _ _ _ _ _ => some a
  | .arrow _ a _ _ _ _ _ _ => some a
  | .text _ a _ _ _ _ => a

/-- JS property access `element.y1`. -/
def y1? : Element α → Option α
  | .brush .. => none
  | .line _ _ b _ _ _ _ _ => some b
  | .rectangle _ _ b _ _ _ _ _ _ => some b
  | .circle _ _ b _ _ _ _ _ _ _ _ _ _ => some b
  | .arrow _ _ b _ _ _ _ _ => some b
  | .text _ _ b _ _ _ => b

/-- JS property access `element.x2`. -/
def x2? : Element α → Option α
  | .brush .. => none
  | .line _ _ _ c _ _ _ _ => some c
  | .rectangle _ _ _ c _ _ _ _ _ => some c
  | .circle _ _ _ c _ _ _ _ _ _ _ _ _ => some c
  | .arrow _ _ _ c _ _ _ _ => some c
  | .text _ _ _ c _ _ => c

/-- JS property access `element.y2`. -/
def y2? : Element α → Option α
  | .brush .. => none
  | .line _ _ _ _ d _ _ _ => some d
  | .rectangle _ _ _ _ d _ _ _ _ => some d
  | .circle _ _ _ _ d _ _ _ _ _ _ _ _ => some d
  | .arrow _ _ _ _ d _ _ _ => some d
  | .text _ _ _ _ d _ => d

/-- JS property access `element.stroke` (text elements keep the stroke
inside `textEle`, so the top-level access is `undefined`). -/
def stroke? : Element α → Option String
  | .brush _ _ _ s _ => s
  | .line _ _ _ _ _ _ s _ => s
  | .rectangle _ _ _ _ _ _ s _ _ => s
  | .circle _ _ _ _ _ _ _ _ _ _ s _ _ => s
  | .arrow _ _ _ _ _ _ s _ => s
  | .text .. => none

/-- JS property access `element.fill`. -/
def fill? : Element α → Option String
  | .brush .. => none
  | .line .. => none
  | .rectangle _ _ _ _ _ _ _ f _ => f
  | .circle _ _ _ _ _ _ _ _ _ _ _ f _ => f
  | .arrow .. => none
  | .text .. => none

/-- JS property access `element.size`. -/
def size? : Element α → Option α
  | .brush _ _ _ _ z => z
  | .line _ _ _ _ _ _ _ z => z
  | .rectangle _ _ _ _ _ _ _ _ z => z
  | .circle _ _ _ _ _ _ _ _ _ _ _ _ z => z
  | .arrow _ _ _ _ _ _ _ z => z
  | .text .. => none

/-- JS property access `element.text` (always `undefined`: the text lives
in the nested `textEle` record). -/
def text? : Element α → Option String
  | _ => none

/-- JS property access `element.points`. -/
def points? : Element α → Option (List (α × α))
  | .brush _ p _ _ _ => some p
  | _ => none

end Element

/-- The `{type, text, stroke, fill, size}` options object taken by
`createRoughElement` and `getUpdatedElements`; absent properties are
`none`. -/
structure EleOpts (α : Type) where
  type : ToolItem
  text : Option String
  stroke : Option String
  fill : Option String
  size : Option α
deriving DecidableEq, Repr

/-- The host environment: everything the sources call but do not define.
`sqrt`, `cos`, `sin`, `atan2`, `pi` model the JS `Math` object;
`getStroke` models the external `perfect-freehand` library;
`measureTextWidth` (taking the font size and the text) and `isPointInPath`
model the canvas 2D context; `parseIntNum` models `parseInt` applied to the
stored font size.  `lineThreshold` and `arrowLength` are modelled from the
spec: the `constants` module is missing from the sources, and the spec
describes `ELEMENT_ERASE_THRESHOLDS.LINE` as a fixed configured proximity
threshold and `ARROW_LENGTH` as a fixed arrowhead length. -/
structure JsEnv (α : Type) where
  sqrt : α → α
  cos : α → α
  sin : α → α
  atan2 : α → α → α
  pi : α
  getStroke : List (α × α) → List (α × α)
  measureTextWidth : Option α → String → α
  parseIntNum : Option α → α
  isPointInPath : List (SvgTok α) → α → α → Bool
  lineThreshold : α
  arrowLength : α

section JsArrays

variable {β : Type}

/-- JS array read `a[i]`: `undefined` (`none`) when `i` is negative or past
the end. -/
def jsGetElem (l : List β) (i : ℤ) : Option β :=
  if i < 0 then none else l.get? i.toNat

/-- JS array write `a[i] = b` for the in-range case.  (JS would store a
plain property for a negative index and extend the array for an index past
the end; neither happens in the modelled code, and `List.set` leaves the
list unchanged there.) -/
def jsSet (l : List β) (i : ℤ) (b : β) : List β :=
  if i < 0 then l else l.set i.toNat b

/-- JS `a.slice(0, e)`: take at most `e` elements, where a negative `e`
counts from the end, clamped at 0. -/
def jsSliceTo (l : List β) (e : ℤ) : List β :=
  if e < 0 then l.take ((l.length : ℤ) + e).toNat else l.take e.toNat

end JsArrays

section MathUtils

variable {α : Type} [LinearOrderedField α]

/-- `distanceBetweenPoints` from `src/utils/math.js`. -/
def distanceBetweenPoints (env : JsEnv α) (x1 y1 x2 y2 : α) : α :=
  let dx := x2 - x1
  let dy := y2 - y1
  env.sqrt (dx * dx + dy * dy)

/-- `isPointCloseToLine` from `src/utils/math.js`. -/
def isPointCloseToLine (env : JsEnv α) (x1 y1 x2 y2 pointX pointY : α) : Bool :=
  let distToStart := distanceBetweenPoints env x1 y1 pointX pointY
  let distToEnd := distanceBetweenPoints env x2 y2 pointX pointY
  let distLine := distanceBetweenPoints env x1 y1 x2 y2
  decide (|distToStart + distToEnd - distLine| < env.lineThreshold)

/-- `isNearPoint` from `src/utils/math.js`. -/
def isNearPoint (x y x1 y1 : α) : Bool :=
  decide (|x - x1| < 5) && decide (|y - y1| < 5)

/-- Result record of `getArrowHeadsCoordinates`. -/
structure ArrowHeads (α : Type) where
  x3 : α
  y3 : α
  x4 : α
  y4 : α
deriving DecidableEq, Repr

/-- `getArrowHeadsCoordinates` from `src/utils/math.js`. -/
def getArrowHeadsCoordinates (env : JsEnv α) (x1 y1 x2 y2 arrowLength : α) :
    ArrowHeads α :=
  let angle := env.atan2 (y2 - y1) (x2 - x1)
  let x3 := x2 - arrowLength * env.cos (angle - env.pi / 6)
  let y3 := y2 - arrowLength * env.sin (angle - env.pi / 6)
  let x4 := x2 - arrowLength * env.cos (angle + env.pi / 6)
  let y4 := y2 - arrowLength * env.sin (angle + env.pi / 6)
  ⟨x3, y3, x4, y4⟩

/-- `midPointBtw` from `src/utils/math.js`. -/
def midPointBtw (p1 p2 : α × α) : α × α :=
  (p1.1 + (p2.1 - p1.1) / 2, p1.2 + (p2.2 - p1.2) / 2)

end MathUtils

section ElementUtils

variable {α : Type} [LinearOrderedField α]

/-- `getSvgPathFromStroke` from `src/utils/element.js`, producing the token
sequence of the SVG path (the final space-`join` of the JS code is
omitted; the token list determines it).  The `reduce` visits each stroke
point together with its cyclic successor `arr[(i + 1) % arr.length]`,
which `stroke.zip (stroke.rotate 1)` produces. -/
def getSvgPathFromStroke (stroke : List (α × α)) : List (SvgTok α) :=
  match stroke with
  | [] => []
  | p0 :: _ =>
    let init : List (SvgTok α) := [.M, .num p0.1, .num p0.2, .Q]
    let d := (stroke.zip (stroke.rotate 1)).foldl
      (fun acc pq =>
        acc ++ [.num pq.1.1, .num pq.1.2,
          .num ((pq.1.1 + pq.2.1) / 2), .num ((pq.1.2 + pq.2.2) / 2)])
      init
    d ++ [.Z]

/-- The incremental construction of the rough.js `options` object in
`createRoughElement`: seed `index + 1`, default `strokeWidth` 3 overridden
by a truthy (nonzero) `size`, `stroke`/`fill` set only when provided and
nonempty, `fillStyle` set alongside `fill`. -/
def mkRoughOptions (index : ℤ) (stroke fill : Option String) (size : Option α) :
    RoughOptions α :=
  { seed := index + 1
    strokeWidth :=
      match size with
      | some v => if v ≠ 0 then v else 3
      | none => 3
    stroke :=
      match stroke with
      | some s => if s.length > 0 then some s else none
      | none => none
    fill :=
      match fill with
      | some f => if f.length > 0 then some f else none
      | none => none
    fillStyle :=
      match fill with
      | some f => if f.length > 0 then some "solid" else none
      | none => none }

/-- `createRoughElement` from `src/utils/element.js`.  Coordinates arrive as
`Option` because `CHANGE_TEXT` passes `null` for `x2`,`y2` and forwards
possibly-`undefined` fields of a stored element.  The shape and brush
branches perform arithmetic on their coordinates and are modelled as
errors when a needed coordinate is `undefined` (the JS code would instead
produce `NaN`-poisoned geometry there; no claim depends on that path).
The unrecognized-type branch is the source's `throw`. -/
def createRoughElement (env : JsEnv α) (index : ℤ) (x1 y1 x2 y2 : Option α)
    (o : EleOpts α) : Except String (Element α) :=
  let options : RoughOptions α := mkRoughOptions index o.stroke o.fill o.size
  match o.type with
  | .BRUSH =>
    match x1, y1 with
    | some a, some b =>
      .ok (.brush index [(a, b)]
        (getSvgPathFromStroke (env.getStroke [(a, b)])) o.stroke o.size)
    | _, _ => .error "modelled: undefined coordinate"
  | .LINE =>
    match x1, y1, x2, y2 with
    | some a, some b, some c, some d =>
      .ok (.line index a b c d (.line a b c d options) o.stroke o.size)
    | _, _, _, _ => .error "modelled: undefined coordinate"
  | .RECTANGLE =>
    match x1, y1, x2, y2 with
    | some a, some b, some c, some d =>
      .ok (.rectangle index a b c d (.rectangle a b (c - a) (d - b) options)
        o.stroke o.fill o.size)
    | _, _, _, _ => .error "modelled: undefined coordinate"
  | .CIRCLE =>
    match x1, y1, x2, y2 with
    | some a, some b, some c, some d =>
      let cx := (a + c) / 2
      let cy := (b + d) / 2
      let width := c - a
      let height := d - b
      .ok (.circle index a b c d (.ellipse cx cy width height options)
        width height cx cy o.stroke o.fill o.size)
    | _, _, _, _ => .error "modelled: undefined coordinate"
  | .ARROW =>
    match x1, y1, x2, y2 with
    | some a, some b, some c, some d =>
      let ah := getArrowHeadsCoordinates env a b c d env.arrowLength
      let points : List (α × α) := [(a, b), (c, d), (ah.x3, ah.y3), (c, d), (ah.x4, ah.y4)]
      .ok (.arrow index a b c d (.linearPath points options) o.stroke o.size)
    | _, _, _, _ => .error "modelled: undefined coordinate"
  | .TEXT =>
    .ok (.text index x1 y1 x2 y2 ⟨o.text.getD "", o.stroke, o.size⟩)
  | .ERASER => .error "Type not recognized eraser"

/-- `getUpdatedElements` from `src/utils/element.js` (value-level
semantics; the aliasing behaviour of the brush branch is modelled
separately by `getUpdatedElementsH`).  Returns `.ok none` when the JS
function returns `undefined` (the text branch falls through the `switch`
with no `return`).  In the shape branch the destructuring
`const {x1, y1, type, text, stroke, fill, size} = elements[id]` shadows
the parameters `x1`,`y1` and every option except the dispatching `type`,
so the rebuilt element takes those values from the stored element. -/
def getUpdatedElements (env : JsEnv α) (elements : List (Element α)) (id : ℤ)
    (_x1 _y1 : Option α) (x2 y2 : α) (o : EleOpts α) :
    Except String (Option (List (Element α))) :=
  let elementsCopy := elements
  match o.type with
  | .LINE | .RECTANGLE | .CIRCLE | .ARROW =>
    match jsGetElem elements id with
    | none => .error "TypeError: cannot destructure undefined"
    | some el =>
      match createRoughElement env id el.x1? el.y1? (some x2) (some y2)
          ⟨el.type, el.text?, el.stroke?, el.fill?, el.size?⟩ with
      | .error e => .error e
      | .ok newEle => .ok (some (jsSet elementsCopy id newEle))
  | .BRUSH =>
    match jsGetElem elements id with
    | none => .error "TypeError: cannot set properties of undefined"
    | some el =>
      match el with
      | .brush bid pts _ stk sz =>
        let newPts := pts ++ [(x2, y2)]
        .ok (some (jsSet elementsCopy id
          (.brush bid newPts (getSvgPathFromStroke (env.getStroke newPts)) stk sz)))
      | _ => .error "TypeError: spread of undefined points"
  | .TEXT => .ok none
  | .ERASER => .error "Type not recognized eraser"

/-- `adjustElementCoordinates` from `src/utils/element.js`. -/
def adjustElementCoordinates (x1 y1 x2 y2 : α) : α × α × α × α :=
  if x1 < x2 ∨ (x1 = x2 ∧ y1 < y2) then (x1, y1, x2, y2) else (x2, y2, x1, y1)

/-- `isPointNearElement` from `src/utils/element.js`.  The text branch
measures the text through the canvas context (`env.measureTextWidth`,
`env.parseIntNum`); when `x1` or `y1` is `undefined` every comparison the
JS code makes is against `NaN` and yields `false`, hence the `false`
fallback.  The brush branch delegates to the canvas `isPointInPath`.  The
source's default `throw` branch is unreachable: every element is built by
`createRoughElement`, whose results carry one of the six recognized
types. -/
def isPointNearElement (env : JsEnv α) (el : Element α) (pointX pointY : α) : Bool :=
  match el with
  | .line _ x1 y1 x2 y2 _ _ _ =>
    isPointCloseToLine env x1 y1 x2 y2 pointX pointY
  | .arrow _ x1 y1 x2 y2 _ _ _ =>
    isPointCloseToLine env x1 y1 x2 y2 pointX pointY
  | .rectangle _ x1 y1 x2 y2 _ _ _ _ =>
    isPointCloseToLine env x1 y1 x2 y1 pointX pointY ||
    isPointCloseToLine env x2 y1 x2 y2 pointX pointY ||
    isPointCloseToLine env x2 y2 x1 y2 pointX pointY ||
    isPointCloseToLine env x1 y2 x1 y1 pointX pointY
  | .circle _ _ _ _ _ _ width height centerX centerY _ _ _ =>
    let rectx1 := centerX - width / 2
    let recty1 := centerY - height / 2
    let rectx2 := centerX + width / 2
    let recty2 := centerY - height / 2
    let rectx3 := centerX + width / 2
    let recty3 := centerY + height / 2
    let rectx4 := centerX - width / 2
    let recty4 := centerY + height / 2
    isPointCloseToLine env rectx1 recty1 rectx2 recty2 pointX pointY ||
    isPointCloseToLine env rectx2 recty2 rectx3 recty3 pointX pointY ||
    isPointCloseToLine env rectx3 recty3 rectx4 recty4 pointX pointY ||
    isPointCloseToLine env rectx4 recty4 rectx1 recty1 pointX pointY
  | .text _ ox1 oy1 _ _ te =>
    match ox1, oy1 with
    | some x1, some y1 =>
      let textWidth := env.measureTextWidth te.size te.text
      let textHeight := env.parseIntNum te.size
      isPointCloseToLine env x1 y1 (x1 + textWidth) y1 pointX pointY ||
      isPointCloseToLine env (x1 + textWidth) y1 (x1 + textWidth) (y1 + textHeight)
        pointX pointY ||
      isPointCloseToLine env (x1 + textWidth) (y1 + textHeight) x1 (y1 + textHeight)
        pointX pointY ||
      isPointCloseToLine env x1 (y1 + textHeight) x1 y1 pointX pointY
    | _, _ => false
  | .brush _ _ path _ _ => env.isPointInPath path pointX pointY

end ElementUtils

section BoardReducer

variable {α : Type} [LinearOrderedField α]

/-- The actions of `BOARD_ACTIONS`, with their payloads; `unknown` stands
for any unrecognized action type (the reducer's `default` branch). -/
inductive Action (α : Type) where
  | changeTool (tool : ToolItem)
  | changeActionType (actionType : ToolActionType)
  | drawDown (clientX clientY : α) (size : Option α)
      (strokeColor fillColor : Option String)
  | drawMove (clientX clientY : α)
  | drawUp
  | erase (clientX clientY : α)
  | changeText (text : String) (strokeColor : Option String) (size : Option α)
  | undo
  | redo
  | unknown
deriving DecidableEq, Repr

/-- The board state managed by `BoardProvider`. -/
structure BoardState (α : Type) where
  activeToolItem : ToolItem
  toolActionType : ToolActionType
  elements : List (Element α)
  history : List (List (Element α))
  index : ℤ
  selectedElement : Option (Element α)
deriving DecidableEq, Repr

/-- `initialBoardState` from `src/store/BoardProvider.js`. -/
def initialBoardState : BoardState α :=
  { activeToolItem := .BRUSH
    toolActionType := .NONE
    elements := []
    history := [[]]
    index := 0
    selectedElement := none }

/-- `boardReducer` from `src/store/BoardProvider.js`.  `Except.error`
models a thrown `TypeError` (destructuring `undefined`, reading `id` of
`null`) and propagated throws from `createRoughElement`; additionally the
`DRAW_MOVE`/`UNDO`/`REDO` paths in which the JS code would store
`undefined` into `state.elements` (text-tool `DRAW_MOVE`, out-of-range
history reads, both unreachable in the flows the claims concern) are
modelled as errors, since `elements` is typed as a list here. -/
def boardReducer (env : JsEnv α) (state : BoardState α) (action : Action α) :
    Except String (BoardState α) :=
  match action with
  | .changeTool tool =>
    .ok { state with activeToolItem := tool }
  | .changeActionType actionType =>
    .ok { state with toolActionType := actionType }
  | .drawDown clientX clientY size strokeColor fillColor =>
    let id : ℤ := state.elements.length
    match createRoughElement env id (some clientX) (some clientY)
        (some clientX) (some clientY)
        ⟨state.activeToolItem, none, strokeColor, fillColor, size⟩ with
    | .error e => .error e
    | .ok newElement =>
      let newElements := state.elements ++ [newElement]
      .ok { state with
        elements := newElements
        toolActionType :=
          if state.activeToolItem ∈ DRAW_TOOL_ITEMS then .DRAWING else .WRITING
        selectedElement := some newElement }
  | .drawMove clientX clientY =>
    let index : ℤ := (state.elements.length : ℤ) - 1
    match jsGetElem state.elements index with
    | none => .error "TypeError: cannot destructure undefined"
    | some el =>
      match getUpdatedElements env state.elements index el.x1? el.y1?
          clientX clientY ⟨el.type, el.text?, el.stroke?, el.fill?, el.size?⟩ with
      | .error e => .error e
      | .ok none => .error "modelled: elements became undefined"
      | .ok (some newEls) => .ok { state with elements := newEls }
  | .drawUp =>
    let elements := state.elements
    let newHistory := jsSliceTo state.history (state.index + 1) ++ [elements]
    .ok { state with
      history := newHistory
      index := (newHistory.length : ℤ) - 1 }
  | .erase clientX clientY =>
    let newElements :=
      state.elements.filter (fun ele => !(isPointNearElement env ele clientX clientY))
    if newElements.length = state.elements.length then .ok state
    else
      let prevIndex := state.index
      .ok { state with
        elements := newElements
        history := state.history ++ [newElements]
        index := prevIndex + 1
        toolActionType := .ERASING }
  | .changeText text strokeColor size =>
    match state.selectedElement with
    | none => .error "TypeError: cannot read properties of null"
    | some sel =>
      let index := sel.id
      match jsGetElem state.elements index with
      | none => .error "TypeError: cannot destructure undefined"
      | some el =>
        match createRoughElement env el.id el.x1? el.y1? none none
            ⟨el.type, some text, strokeColor, none, size⟩ with
        | .error e => .error e
        | .ok newEle =>
          let elementsCopy := jsSet state.elements el.id newEle
          let prevIndex := state.index
          .ok { state with
            elements := elementsCopy
            history := state.history ++ [elementsCopy]
            index := prevIndex + 1 }
  | .undo =>
    if state.index ≤ 0 then .ok state
    else
      match jsGetElem state.history (state.index - 1) with
      | none => .error "modelled: elements became undefined"
      | some prevElements =>
        .ok { state with elements := prevElements, index := state.index - 1 }
  | .redo =>
    if state.index ≥ (state.history.length : ℤ) - 1 then .ok state
    else
      match jsGetElem state.history (state.index + 1) with
      | none => .error "modelled: elements became undefined"
      | some nextElements =>
        .ok { state with elements := nextElements, index := state.index + 1 }
  | .unknown => .ok state

/-- One dispatch as seen by the owning React component: a throwing reducer
leaves the committed state unchanged. -/
def applyAction (env : JsEnv α) (state : BoardState α) (action : Action α) :
    BoardState α :=
  match boardReducer env state action with
  | .ok s => s
  | .error _ => state

/-- The state reached from `initialBoardState` by dispatching a list of
actions in order. -/
def runActions (env : JsEnv α) (actions : List (Action α)) : BoardState α :=
  actions.foldl (applyAction env) initialBoardState

/-- `k` consecutive Undo dispatches. -/
def undoN (env : JsEnv α) : ℕ → BoardState α → BoardState α
  | 0, s => s
  | k + 1, s => undoN env k (applyAction env s .undo)

/-- `k` consecutive Redo dispatches. -/
def redoN (env : JsEnv α) : ℕ → BoardState α → BoardState α
  | 0, s => s
  | k + 1, s => redoN env k (applyAction env s .redo)

end BoardReducer

section HeapModel

variable {α : Type} [LinearOrderedField α]

/-- The store of live element objects; a reference is a position in this
list.  This refines the value-level model with object identity, so that
the in-place mutation performed by the brush branch of
`getUpdatedElements` is observable. -/
structure ElemHeap (α : Type) where
  objs : List (Element α)
deriving DecidableEq, Repr

/-- Dereference an element object. -/
def heapGet (h : ElemHeap α) (r : ℕ) : Option (Element α) :=
  h.objs.get? r

/-- `getUpdatedElements` over the object store: the element collection is
an array of references, `[...elements]` copies only the references.  The
shape branch allocates a fresh object and repoints slot `id`; the brush
branch mutates the object behind the existing reference in place
(`elementsCopy[id].points = ...`, `elementsCopy[id].path = ...`) and
returns the same reference list. -/
def getUpdatedElementsH (env : JsEnv α) (h : ElemHeap α) (elements : List ℕ)
    (id : ℤ) (_x1 _y1 : Option α) (x2 y2 : α) (o : EleOpts α) :
    Except String (ElemHeap α × Option (List ℕ)) :=
  let elementsCopy := elements
  match o.type with
  | .LINE | .RECTANGLE | .CIRCLE | .ARROW =>
    match jsGetElem elements id with
    | none => .error "TypeError: cannot destructure undefined"
    | some r =>
      match heapGet h r with
      | none => .error "modelled: dangling reference"
      | some el =>
        match createRoughElement env id el.x1? el.y1? (some x2) (some y2)
            ⟨el.type, el.text?, el.stroke?, el.fill?, el.size?⟩ with
        | .error e => .error e
        | .ok newEle =>
          .ok (⟨h.objs ++ [newEle]⟩, some (jsSet elementsCopy id h.objs.length))
  | .BRUSH =>
    match jsGetElem elements id with
    | none => .error "TypeError: cannot set properties of undefined"
    | some r =>
      match heapGet h r with
      | none => .error "modelled: dangling reference"
      | some el =>
        match el with
        | .brush bid pts _ stk sz =>
          let newPts := pts ++ [(x2, y2)]
          let mutated : Element α :=
            .brush bid newPts (getSvgPathFromStroke (env.getStroke newPts)) stk sz
          .ok (⟨h.objs.set r mutated⟩, some elementsCopy)
        | _ => .error "TypeError: spread of undefined points"
  | .TEXT => .ok (h, none)
  | .ERASER => .error "Type not recognized eraser"

/-- The `DRAW_MOVE` transition of the reducer over the object store. -/
def drawMoveH (env : JsEnv α) (h : ElemHeap α) (elements : List ℕ) (x y : α) :
    Except String (ElemHeap α × List ℕ) :=
  let index : ℤ := (elements.length : ℤ) - 1
  match jsGetElem elements index with
  | none => .error "TypeError: cannot destructure undefined"
  | some r =>
    match heapGet h r with
    | none => .error "modelled: dangling reference"
    | some el =>
      match getUpdatedElementsH env h elements index el.x1? el.y1? x y
          ⟨el.type, el.text?, el.stroke?, el.fill?, el.size?⟩ with
      | .error e => .error e
      | .ok (_, none) => .error "modelled: elements became undefined"
      | .ok (h2, some els2) => .ok (h2, els2)

end HeapModel

/-- A concrete environment over `ℚ` used to evaluate the model on concrete
inputs.  The mathematical fields are arbitrary placeholders; every
concrete run below only exercises code paths that do not consult them. -/
def qEnv : JsEnv ℚ :=
  { sqrt := fun _ => 0
    cos := fun _ => 0
    sin := fun _ => 0
    atan2 := fun _ _ => 0
    pi := 0
    getStroke := fun _ => []
    measureTextWidth := fun _ _ => 0
    parseIntNum := fun _ => 0
    isPointInPath := fun _ _ _ => false
    lineThreshold := 1
    arrowLength := 20 }

/-! ### Basic lemmas about the JS array primitives -/

section JsArrayLemmas

variable {β : Type}

theorem jsGetElem_of_nonneg {i : ℤ} (l : List β) (h0 : 0 ≤ i) :
    jsGetElem l i = l.get? i.toNat := by
  simp [jsGetElem, not_lt.mpr h0]

theorem jsGetElem_isSome {l : List β} {i : ℤ} (h0 : 0 ≤ i)
    (h1 : i < (l.length : ℤ)) : ∃ v, jsGetElem l i = some v := by
  rw [jsGetElem_of_nonneg l h0]
  have h2 : i.toNat < l.length := by omega
  exact ⟨l.get ⟨i.toNat, h2⟩, List.get?_eq_get h2⟩

theorem jsGetElem_some_bounds {l : List β} {i : ℤ} {v : β}
    (h : jsGetElem l i = some v) : 0 ≤ i ∧ i < (l.length : ℤ) := by
  by_cases h0 : 0 ≤ i
  · rw [jsGetElem_of_nonneg l h0] at h
    obtain ⟨hlt, -⟩ := List.get?_eq_some.mp h
    omega
  · have hneg : i < 0 := by omega
    simp [jsGetElem, hneg] at h

theorem jsGetElem_concat_length (l : List β) (x : β) :
    jsGetElem (l ++ [x]) (l.length : ℤ) = some x := by
  rw [jsGetElem_of_nonneg _ (by positivity)]
  simp [List.get?_concat_length]

theorem jsGetElem_append_left {l l2 : List β} {i : ℤ} (h0 : 0 ≤ i)
    (h1 : i < (l.length : ℤ)) : jsGetElem (l ++ l2) i = jsGetElem l i := by
  rw [jsGetElem_of_nonneg _ h0, jsGetElem_of_nonneg _ h0]
  exact List.get?_append (by omega)

theorem jsSliceTo_of_length_le {l : List β} {e : ℤ}
    (h : (l.length : ℤ) ≤ e) : jsSliceTo l e = l := by
  have he : ¬ e < 0 := by omega
  simp only [jsSliceTo, if_neg he]
  exact List.take_of_length_le (by omega)

theorem jsGetElem_zero_slice_append {l l2 : List β} {e : ℤ} (h1 : 1 ≤ e)
    (h2 : l ≠ []) : jsGetElem (jsSliceTo l e ++ l2) 0 = jsGetElem l 0 := by
  have he : ¬ e < 0 := by omega
  simp only [jsSliceTo, if_neg he]
  rw [jsGetElem_of_nonneg _ le_rfl, jsGetElem_of_nonneg _ le_rfl]
  have hl : 0 < l.length := List.length_pos.mpr h2
  have hlen : 0 < (l.take e.toNat).length := by
    simp [List.length_take]
    omega
  simp only [Int.toNat_zero]
  rw [List.get?_append hlen]
  exact List.get?_take (by omega)

end JsArrayLemmas

/-! ### The history-index invariant (claim C8) -/

section IndexInvariant

variable {α : Type} [LinearOrderedField α]

/-- The bound the spec states for the history index. -/
def IndexInBounds (s : BoardState α) : Prop :=
  0 ≤ s.index ∧ s.index < (s.history.length : ℤ)

theorem indexInBounds_reducer (env : JsEnv α) {s s2 : BoardState α}
    {a : Action α} (h : boardReducer env s a = .ok s2)
    (hs : IndexInBounds s) : IndexInBounds s2 := by
  obtain ⟨h0, h1⟩ := hs
  cases a with
  | changeTool t =>
    simp only [boardReducer] at h
    injection h with h2
    subst h2
    exact ⟨h0, h1⟩
  | changeActionType ty =>
    simp only [boardReducer] at h
    injection h with h2
    subst h2
    exact ⟨h0, h1⟩
  | drawDown x y sz st fl =>
    simp only [boardReducer] at h
    split at h
    · exact absurd h (by simp)
    · injection h with h2
      subst h2
      exact ⟨h0, h1⟩
  | drawMove x y =>
    simp only [boardReducer] at h
    split at h
    · exact absurd h (by simp)
    · split at h
      · exact absurd h (by simp)
      · exact absurd h (by simp)
      · injection h with h2
        subst h2
        exact ⟨h0, h1⟩
  | drawUp =>
    simp only [boardReducer] at h
    injection h with h2
    subst h2
    simp only [IndexInBounds, List.length_append, List.length_singleton]
    push_cast
    omega
  | erase x y =>
    simp only [boardReducer] at h
    split at h
    · injection h with h2
      subst h2
      exact ⟨h0, h1⟩
    · injection h with h2
      subst h2
      simp only [IndexInBounds, List.length_append, List.length_singleton]
      push_cast
      omega
  | changeText t st sz =>
    simp only [boardReducer] at h
    split at h
    · exact absurd h (by simp)
    · split at h
      · exact absurd h (by simp)
      · split at h
        · exact absurd h (by simp)
        · injection h with h2
          subst h2
          simp only [IndexInBounds, List.length_append, List.length_singleton]
          push_cast
          omega
  | undo =>
    simp only [boardReducer] at h
    split at h
    · injection h with h2
      subst h2
      exact ⟨h0, h1⟩
    · split at h
      · exact absurd h (by simp)
      · injection h with h2
        subst h2
        simp only [IndexInBounds]
        omega
  | redo =>
    simp only [boardReducer] at h
    split at h
    · injection h with h2
      subst h2
      exact ⟨h0, h1⟩
    · split at h
      · exact absurd h (by simp)
      · injection h with h2
        subst h2
        rename_i hguard _ _
        simp only [IndexInBounds]
        omega
  | unknown =>
    simp only [boardReducer] at h
    injection h with h2
    subst h2
    exact ⟨h0, h1⟩

theorem indexInBounds_applyAction (env : JsEnv α) (s : BoardState α)
    (a : Action α) (h : IndexInBounds s) :
    IndexInBounds (applyAction env s a) := by
  cases hr : boardReducer env s a with
  | error e => simpa [applyAction, hr] using h
  | ok s2 =>
    have := indexInBounds_reducer env hr h
    simpa [applyAction, hr] using this

theorem indexInBounds_foldl (env : JsEnv α) :
    ∀ (acts : List (Action α)) (s : BoardState α), IndexInBounds s →
      IndexInBounds (acts.foldl (applyAction env) s) := by
  intro acts
  induction acts with
  | nil => intro s hs; exact hs
  | cons a rest ih =>
    intro s hs
    exact ih (applyAction env s a) (indexInBounds_applyAction env s a hs)

omit [LinearOrderedField α] in
theorem indexInBounds_initial : IndexInBounds (initialBoardState (α := α)) := by
  constructor <;> simp [initialBoardState]

end IndexInvariant

/-! ### Undo/redo iteration -/

section UndoRedo

variable {α : Type} [LinearOrderedField α]

theorem applyAction_undo_pos (env : JsEnv α) {s : BoardState α}
    (h0 : 0 < s.index) (h1 : s.index < (s.history.length : ℤ)) :
    ∃ E, jsGetElem s.history (s.index - 1) = some E ∧
      applyAction env s .undo = { s with elements := E, index := s.index - 1 } := by
  obtain ⟨E, hE⟩ := jsGetElem_isSome (l := s.history) (i := s.index - 1)
    (by omega) (by omega)
  refine ⟨E, hE, ?_⟩
  have hguard : ¬ s.index ≤ 0 := by omega
  simp [applyAction, boardReducer, hE, hguard]

theorem applyAction_redo_lt (env : JsEnv α) {s : BoardState α}
    (h0 : 0 ≤ s.index) (h1 : s.index < (s.history.length : ℤ) - 1) :
    ∃ E, jsGetElem s.history (s.index + 1) = some E ∧
      applyAction env s .redo = { s with elements := E, index := s.index + 1 } := by
  obtain ⟨E, hE⟩ := jsGetElem_isSome (l := s.history) (i := s.index + 1)
    (by omega) (by omega)
  refine ⟨E, hE, ?_⟩
  have hguard : ¬ s.index ≥ (s.history.length : ℤ) - 1 := by omega
  simp [applyAction, boardReducer, hE, hguard]

theorem undoN_spec (env : JsEnv α) :
    ∀ (k : ℕ) (s : BoardState α), (k : ℤ) ≤ s.index →
      s.index < (s.history.length : ℤ) →
      jsGetElem s.history s.index = some s.elements →
      (undoN env k s).history = s.history ∧
      (undoN env k s).index = s.index - k ∧
      jsGetElem s.history (s.index - k) = some ((undoN env k s).elements) := by
  intro k
  induction k with
  | zero =>
    intro s _ _ hlook
    refine ⟨rfl, by simp [undoN], ?_⟩
    simpa [undoN] using hlook
  | succ k ih =>
    intro s hk hlt hlook
    have h0 : 0 < s.index := by omega
    obtain ⟨E, hE, hstep⟩ := applyAction_undo_pos env h0 hlt
    have hdef : undoN env (k + 1) s = undoN env k (applyAction env s .undo) := rfl
    rw [hdef, hstep]
    have ih2 := ih { s with elements := E, index := s.index - 1 }
      (by simp; omega) (by simp; omega) (by simpa using hE)
    obtain ⟨ihH, ihI, ihL⟩ := ih2
    refine ⟨by simpa using ihH, by simp at ihI ⊢; omega, ?_⟩
    have harith : s.index - 1 - (k : ℤ) = s.index - ((k : ℕ) + 1 : ℕ) := by
      push_cast
      omega
    simp only at ihL
    rw [harith] at ihL
    exact ihL

theorem redoN_spec (env : JsEnv α) :
    ∀ (k : ℕ) (s : BoardState α), 0 ≤ s.index →
      s.index + k ≤ (s.history.length : ℤ) - 1 →
      jsGetElem s.history s.index = some s.elements →
      (redoN env k s).history = s.history ∧
      (redoN env k s).index = s.index + k ∧
      jsGetElem s.history (s.index + k) = some ((redoN env k s).elements) := by
  intro k
  induction k with
  | zero =>
    intro s _ _ hlook
    refine ⟨rfl, by simp [redoN], ?_⟩
    simpa [redoN] using hlook
  | succ k ih =>
    intro s h0 hk hlook
    have hlt : s.index < (s.history.length : ℤ) - 1 := by push_cast at hk; omega
    obtain ⟨E, hE, hstep⟩ := applyAction_redo_lt env h0 hlt
    have hdef : redoN env (k + 1) s = redoN env k (applyAction env s .redo) := rfl
    rw [hdef, hstep]
    have ih2 := ih { s with elements := E, index := s.index + 1 }
      (by simp; omega) (by simp; push_cast at hk ⊢; omega) (by simpa using hE)
    obtain ⟨ihH, ihI, ihL⟩ := ih2
    refine ⟨by simpa using ihH, by simp at ihI ⊢; omega, ?_⟩
    have harith : s.index + 1 + (k : ℤ) = s.index + ((k : ℕ) + 1 : ℕ) := by
      push_cast
      omega
    simp only at ihL
    rw [harith] at ihL
    exact ihL

end UndoRedo

/-! ### Committing runs (claim C2) -/

section CommitRuns

variable {α : Type} [LinearOrderedField α]

/-- A run of committing dispatches: a draw-up, an erase that removed at
least one element, or a text-change commit, each applied through the
reducer; `n` counts the commits. -/
inductive CommitRun (env : JsEnv α) : BoardState α → ℕ → BoardState α → Prop where
  | refl (s : BoardState α) : CommitRun env s 0 s
  | drawUp {s0 s s2 : BoardState α} {n : ℕ} (hrun : CommitRun env s0 n s)
      (hstep : boardReducer env s .drawUp = .ok s2) :
      CommitRun env s0 (n + 1) s2
  | erase {s0 s s2 : BoardState α} {n : ℕ} {x y : α}
      (hrun : CommitRun env s0 n s)
      (hstep : boardReducer env s (.erase x y) = .ok s2)
      (hremoved : s2.elements.length < s.elements.length) :
      CommitRun env s0 (n + 1) s2
  | changeText {s0 s s2 : BoardState α} {n : ℕ} {t : String}
      {st : Option String} {sz : Option α} (hrun : CommitRun env s0 n s)
      (hstep : boardReducer env s (.changeText t st sz) = .ok s2) :
      CommitRun env s0 (n + 1) s2

/-- After `n` commits from the initial state the index sits at the top of
the history and the top snapshot is the live collection. -/
def CommitInv (s : BoardState α) (n : ℕ) : Prop :=
  s.index = n ∧ (s.history.length : ℤ) = n + 1 ∧
    jsGetElem s.history s.index = some s.elements

theorem commitRun_inv (env : JsEnv α) {s : BoardState α} {n : ℕ}
    (h : CommitRun env initialBoardState n s) : CommitInv s n := by
  induction h with
  | refl =>
    exact ⟨rfl, by simp [initialBoardState],
      by simp [initialBoardState, jsGetElem]⟩
  | drawUp hrun hstep ih =>
    obtain ⟨hi, hlen, hlook⟩ := ih
    rename_i s0 s s2 n
    simp only [boardReducer] at hstep
    injection hstep with h2
    subst h2
    have hslice : jsSliceTo s.history (s.index + 1) = s.history :=
      jsSliceTo_of_length_le (by omega)
    simp only [CommitInv, hslice, List.length_append, List.length_singleton]
    refine ⟨by push_cast; omega, by push_cast; omega, ?_⟩
    have hidx : ((s.history.length + 1 : ℕ) : ℤ) - 1 = (s.history.length : ℤ) := by
      push_cast
      omega
    rw [hidx]
    exact jsGetElem_concat_length s.history s.elements
  | erase hrun hstep hremoved ih =>
    obtain ⟨hi, hlen, hlook⟩ := ih
    rename_i s0 s s2 n x y
    simp only [boardReducer] at hstep
    split at hstep
    · injection hstep with h2
      subst h2
      exact absurd hremoved (lt_irrefl _)
    · injection hstep with h2
      subst h2
      simp only [CommitInv, List.length_append, List.length_singleton]
      refine ⟨by push_cast; omega, by push_cast; omega, ?_⟩
      have hidx : s.index + 1 = (s.history.length : ℤ) := by omega
      rw [hidx]
      exact jsGetElem_concat_length _ _
  | changeText hrun hstep ih =>
    obtain ⟨hi, hlen, hlook⟩ := ih
    rename_i s0 s s2 n t st sz
    simp only [boardReducer] at hstep
    split at hstep
    · exact absurd hstep (by simp)
    · split at hstep
      · exact absurd hstep (by simp)
      · split at hstep
        · exact absurd hstep (by simp)
        · injection hstep with h2
          subst h2
          simp only [CommitInv, List.length_append, List.length_singleton]
          refine ⟨by push_cast; omega, by push_cast; omega, ?_⟩
          have hidx : s.index + 1 = (s.history.length : ℤ) := by omega
          rw [hidx]
          exact jsGetElem_concat_length _ _

end CommitRuns

/-! ### The first history snapshot (claim C10) -/

section HeadInvariant

variable {α : Type} [LinearOrderedField α]

/-- The first history snapshot is the empty collection. -/
def HistoryHeadEmpty (s : BoardState α) : Prop :=
  jsGetElem s.history 0 = some []

theorem headEmpty_reducer (env : JsEnv α) {s s2 : BoardState α}
    {a : Action α} (h : boardReducer env s a = .ok s2)
    (hb : IndexInBounds s) (hh : HistoryHeadEmpty s) : HistoryHeadEmpty s2 := by
  obtain ⟨h0, h1⟩ := hb
  have hne : s.history ≠ [] := by
    intro hcon
    rw [hcon] at h1
    simp at h1
    omega
  have hlenpos : 0 < (s.history.length : ℤ) := by omega
  cases a with
  | changeTool t =>
    simp only [boardReducer] at h
    injection h with h2
    subst h2
    exact hh
  | changeActionType ty =>
    simp only [boardReducer] at h
    injection h with h2
    subst h2
    exact hh
  | drawDown x y sz st fl =>
    simp only [boardReducer] at h
    split at h
    · exact absurd h (by simp)
    · injection h with h2
      subst h2
      exact hh
  | drawMove x y =>
    simp only [boardReducer] at h
    split at h
    · exact absurd h (by simp)
    · split at h
      · exact absurd h (by simp)
      · exact absurd h (by simp)
      · injection h with h2
        subst h2
        exact hh
  | drawUp =>
    simp only [boardReducer] at h
    injection h with h2
    subst h2
    show jsGetElem (jsSliceTo s.history (s.index + 1) ++ [s.elements]) 0 = some []
    rw [jsGetElem_zero_slice_append (by omega) hne]
    exact hh
  | erase x y =>
    simp only [boardReducer] at h
    split at h
    · injection h with h2
      subst h2
      exact hh
    · injection h with h2
      subst h2
      show jsGetElem (s.history ++ _) 0 = some []
      rw [jsGetElem_append_left le_rfl hlenpos]
      exact hh
  | changeText t st sz =>
    simp only [boardReducer] at h
    split at h
    · exact absurd h (by simp)
    · split at h
      · exact absurd h (by simp)
      · split at h
        · exact absurd h (by simp)
        · injection h with h2
          subst h2
          show jsGetElem (s.history ++ _) 0 = some []
          rw [jsGetElem_append_left le_rfl hlenpos]
          exact hh
  | undo =>
    simp only [boardReducer] at h
    split at h
    · injection h with h2
      subst h2
      exact hh
    · split at h
      · exact absurd h (by simp)
      · injection h with h2
        subst h2
        exact hh
  | redo =>
    simp only [boardReducer] at h
    split at h
    · injection h with h2
      subst h2
      exact hh
    · split at h
      · exact absurd h (by simp)
      · injection h with h2
        subst h2
        exact hh
  | unknown =>
    simp only [boardReducer] at h
    injection h with h2
    subst h2
    exact hh

theorem headEmpty_applyAction (env : JsEnv α) {s : BoardState α}
    (a : Action α) (hb : IndexInBounds s) (hh : HistoryHeadEmpty s) :
    HistoryHeadEmpty (applyAction env s a) := by
  cases hr : boardReducer env s a with
  | error e => simpa [applyAction, hr] using hh
  | ok s2 =>
    have := headEmpty_reducer env hr hb hh
    simpa [applyAction, hr] using this

theorem reachInv_foldl (env : JsEnv α) :
    ∀ (acts : List (Action α)) (s : BoardState α),
      IndexInBounds s → HistoryHeadEmpty s →
      IndexInBounds (acts.foldl (applyAction env) s) ∧
        HistoryHeadEmpty (acts.foldl (applyAction env) s) := by
  intro acts
  induction acts with
  | nil => intro s hb hh; exact ⟨hb, hh⟩
  | cons a rest ih =>
    intro s hb hh
    exact ih (applyAction env s a) (indexInBounds_applyAction env s a hb)
      (headEmpty_applyAction env a hb hh)

omit [LinearOrderedField α] in
theorem headEmpty_initial : HistoryHeadEmpty (initialBoardState (α := α)) := by
  simp [HistoryHeadEmpty, initialBoardState, jsGetElem]

theorem undoN_index_toNat_empty (env : JsEnv α) {s : BoardState α}
    (hb : IndexInBounds s) (hh : HistoryHeadEmpty s) (hpos : 0 < s.index) :
    (undoN env s.index.toNat s).elements = [] := by
  obtain ⟨h0, h1⟩ := hb
  obtain ⟨E, hE, hstep⟩ := applyAction_undo_pos env hpos h1
  have hn : s.index.toNat = (s.index.toNat - 1) + 1 := by omega
  rw [hn]
  have hdef : undoN env ((s.index.toNat - 1) + 1) s =
      undoN env (s.index.toNat - 1) (applyAction env s .undo) := rfl
  rw [hdef, hstep]
  obtain ⟨hH, hI, hL⟩ := undoN_spec env (s.index.toNat - 1)
    { s with elements := E, index := s.index - 1 }
    (by simp; omega) (by simp; omega) (by simpa using hE)
  simp only at hL
  have harith : s.index - 1 - ((s.index.toNat - 1 : ℕ) : ℤ) = 0 := by omega
  rw [harith] at hL
  rw [hh] at hL
  injection hL with h2
  exact h2.symm

end HeadInvariant

/-! ## The claims -/

section Claims

variable {α : Type} [LinearOrderedField α]

/-! ### C1 -/

/-- Committing trace exhibiting the C1 violation: select the text tool,
place a text element, commit twice, undo once, then commit a text change. -/
def commitAfterUndoPrefix : List (Action ℚ) :=
  [ .changeTool .TEXT
  , .drawDown 0 0 (some 1) (some "black") none
  , .drawUp
  , .drawUp
  , .undo ]

/-- The C1 trace: the prefix followed by the committing text change. -/
def commitAfterUndoTrace : List (Action ℚ) :=
  commitAfterUndoPrefix ++ [.changeText "hi" (some "black") (some 1)]

/-- C1.  The claim states that `history[index] == elements` holds
immediately after every committing transition.  The code violates it: the
`CHANGE_TEXT` (and `ERASE`) branches append the new snapshot to the full
history without truncating the redo tail, so after an undo the committed
snapshot lands past `index`.  This theorem evaluates the reducer on a
concrete trace whose final dispatch is a successful text-change commit and
shows the resulting state has `history[index] ≠ elements`. -/
theorem changeText_commit_breaks_snapshot_invariant :
    boardReducer qEnv (runActions qEnv commitAfterUndoPrefix)
        (.changeText "hi" (some "black") (some 1)) =
      .ok (runActions qEnv commitAfterUndoTrace) ∧
    jsGetElem (runActions qEnv commitAfterUndoTrace).history
        (runActions qEnv commitAfterUndoTrace).index ≠
      some (runActions qEnv commitAfterUndoTrace).elements :=
  ⟨rfl, by decide⟩

/-! ### C2 -/

/-- C2.  For any sequence of committing dispatches from the initial state
(`CommitRun`, with `n` commits), `k` undos followed by `k` redos
(`k ≤ n`) restore the element collection that was live before the
undos. -/
theorem undo_redo_round_trip (env : JsEnv α) {s : BoardState α} {n k : ℕ}
    (hrun : CommitRun env initialBoardState n s) (hk : k ≤ n) :
    (redoN env k (undoN env k s)).elements = s.elements := by
  obtain ⟨hi, hlen, hlook⟩ := commitRun_inv env hrun
  obtain ⟨hH, hI, hL⟩ := undoN_spec env k s (by omega) (by omega) hlook
  have h0 : 0 ≤ (undoN env k s).index := by omega
  have hk2 : (undoN env k s).index + k ≤ ((undoN env k s).history.length : ℤ) - 1 := by
    rw [hH, hI]
    omega
  have hlook2 : jsGetElem (undoN env k s).history (undoN env k s).index =
      some (undoN env k s).elements := by
    rw [hH, hI]
    exact hL
  obtain ⟨hH2, hI2, hL2⟩ := redoN_spec env k (undoN env k s) h0 hk2 hlook2
  rw [hH, hI] at hL2
  have harith : s.index - k + k = s.index := by omega
  rw [harith, hlook] at hL2
  injection hL2 with h2
  exact h2.symm

/-- Witness for C2: one draw-up commit from the initial state, then one
undo and one redo, restores the committed (empty) collection. -/
theorem undo_redo_round_trip_witness :
    (redoN qEnv 1 (undoN qEnv 1
      { activeToolItem := .BRUSH, toolActionType := .NONE, elements := [],
        history := [[], []], index := 1, selectedElement := none })).elements =
    ({ activeToolItem := .BRUSH, toolActionType := .NONE, elements := [],
        history := [[], []], index := 1, selectedElement := none } :
      BoardState ℚ).elements :=
  undo_redo_round_trip qEnv
    (CommitRun.drawUp (CommitRun.refl initialBoardState) rfl) (le_refl 1)

/-! ### C3 -/

/-- A line element as stored in a collection (drawn from (0,0) to (1,1)). -/
def sampleLine : Element ℚ :=
  .line 0 0 0 1 1 (.line 0 0 1 1 (mkRoughOptions 0 none none none)) none none

/-- The element the code actually produces when `sampleLine` is updated to
far corner (2,2): the stored `x1`,`y1` (0,0) survive, the requested ones
do not. -/
def sampleLineMoved : Element ℚ :=
  .line 0 0 0 2 2 (.line 0 0 2 2 (mkRoughOptions 0 none none none)) none none

/-- Counterexample to C3: updating the line at index 0 with new
coordinates `x1 = y1 = 5`, `x2 = y2 = 2` does not equal replacing it with
`createRoughElement 0 5 5 2 2 opts` — the destructuring of `elements[id]`
shadows the new `x1`,`y1` and the options, so the stored start corner is
kept. -/
theorem getUpdatedElements_ignores_new_start_coords :
    (getUpdatedElements qEnv [sampleLine] 0 (some 5) (some 5) 2 2
        ⟨.LINE, none, none, none, none⟩).toOption ≠
      (createRoughElement qEnv 0 (some 5) (some 5) (some 2) (some 2)
        ⟨.LINE, none, none, none, none⟩).toOption.map
        (fun e => some (jsSet [sampleLine] 0 e)) := by
  decide

/-- C3 (amended).  For a line/rectangle/circle/arrow update, the element
at `id` is discarded and rebuilt from scratch via `createRoughElement`,
but with the stored element's `x1`,`y1`,`type`,`text`,`stroke`,`fill`,
`size` — only the new far corner `x2`,`y2` (and the index) take effect;
the `x1`,`y1` arguments and the options other than the dispatching `type`
are ignored. -/
theorem getUpdatedElements_rebuilds_from_stored_fields (env : JsEnv α)
    (els : List (Element α)) (id : ℤ) (el : Element α) (x1 y1 : Option α)
    (x2 y2 : α) (o : EleOpts α) (e2 : Element α)
    (htype : o.type = .LINE ∨ o.type = .RECTANGLE ∨ o.type = .CIRCLE ∨
      o.type = .ARROW)
    (hget : jsGetElem els id = some el)
    (hce : createRoughElement env id el.x1? el.y1? (some x2) (some y2)
      ⟨el.type, el.text?, el.stroke?, el.fill?, el.size?⟩ = .ok e2) :
    getUpdatedElements env els id x1 y1 x2 y2 o = .ok (some (jsSet els id e2)) := by
  obtain ⟨ty, tx, st, fl, sz⟩ := o
  dsimp only at htype
  rcases htype with rfl | rfl | rfl | rfl <;>
    simp only [getUpdatedElements, hget, hce]

/-- Witness for C3 (amended): the concrete update of `sampleLine`. -/
theorem getUpdatedElements_rebuilds_from_stored_fields_witness :
    getUpdatedElements qEnv [sampleLine] 0 (some 5) (some 5) 2 2
        ⟨.LINE, none, none, none, none⟩ =
      .ok (some (jsSet [sampleLine] 0 sampleLineMoved)) :=
  getUpdatedElements_rebuilds_from_stored_fields qEnv [sampleLine] 0
    sampleLine (some 5) (some 5) 2 2 ⟨.LINE, none, none, none, none⟩
    sampleLineMoved (Or.inl rfl) rfl rfl

/-! ### C4 -/

/-- Counterexample to C4: dispatching a `DRAW_MOVE` on the initial state
(whose element list is empty) reads `elements[-1]` (`undefined`) and the
destructuring throws, so the reducer is not total: it does not return a
state for every (state, action) pair. -/
theorem boardReducer_drawMove_throws_on_empty :
    (boardReducer qEnv initialBoardState (Action.drawMove 1 2)).toOption = none := by
  decide

/-- C4 (amended).  An unrecognized action type is silently ignored: the
reducer's default branch returns the state unchanged (and in particular
does not throw).  Recognized actions, by contrast, can throw when their
implicit preconditions fail (see the counterexample). -/
theorem boardReducer_unknown_action_ignored (env : JsEnv α) (s : BoardState α) :
    boardReducer env s .unknown = .ok s := rfl

/-! ### C5 -/

/-- A text element as stored in a collection. -/
def sampleText : Element ℚ :=
  .text 0 (some 0) (some 0) (some 0) (some 0) ⟨"", none, none⟩

/-- Counterexample to C5: updating a text element does not return the
unchanged collection — the `TEXT` case of the `switch` only `break`s, so
the function returns `undefined` (modelled `.ok none`), not the
collection. -/
theorem getUpdatedElements_text_not_identity :
    (getUpdatedElements qEnv [sampleText] 0 none none 3 4
        ⟨.TEXT, some "x", none, none, none⟩).toOption ≠
      some (some [sampleText]) := by
  decide

/-- C5 (amended).  For tool kind text, `getUpdatedElements` modifies no
element but returns `undefined` (modelled `.ok none`) instead of the
collection: the caller receives no collection at all. -/
theorem getUpdatedElements_text_returns_undefined (env : JsEnv α)
    (els : List (Element α)) (id : ℤ) (x1 y1 : Option α) (x2 y2 : α)
    (o : EleOpts α) (h : o.type = .TEXT) :
    getUpdatedElements env els id x1 y1 x2 y2 o = .ok none := by
  obtain ⟨ty, tx, st, fl, sz⟩ := o
  dsimp only at h
  subst h
  rfl

/-- Witness for C5 (amended). -/
theorem getUpdatedElements_text_returns_undefined_witness :
    getUpdatedElements qEnv [sampleText] 0 none none 3 4
        ⟨.TEXT, some "x", none, none, none⟩ = .ok none :=
  getUpdatedElements_text_returns_undefined qEnv [sampleText] 0 none none 3 4
    ⟨.TEXT, some "x", none, none, none⟩ rfl

/-! ### C6 -/

/-- A freehand element object as held in the object store. -/
def sampleBrush : Element ℚ := .brush 0 [(0, 0)] [] none none

/-- Counterexample to C6: a pointer-move on a freehand element mutates the
element object in place.  After dispatching `DRAW_MOVE (1,1)` on a state
holding one brush object, the object behind the reference held by the
*input* element list has a different point sequence (and outline) than
before — the transition is not pure. -/
theorem drawMove_mutates_shared_brush_object :
    (drawMoveH qEnv ⟨[sampleBrush]⟩ [0] 1 1).toOption.map
        (fun p => heapGet p.1 0) ≠
      some (some sampleBrush) := by
  decide

/-- C6 (amended).  Every transition except the freehand pointer-move is
pure, but the brush branch of `getUpdatedElements` mutates the targeted
element object in place: the returned collection holds the *same*
references as the input (no fresh object), the shared object's point
sequence gains the new sample and its outline is recomputed, and every
other object in the store is untouched. -/
theorem drawMoveH_brush_mutation_frame (env : JsEnv α) (h : ElemHeap α)
    (elements : List ℕ) (x y : α) (r : ℕ) (bid : ℤ) (pts : List (α × α))
    (pth : List (SvgTok α)) (stk : Option String) (sz : Option α)
    (hr : jsGetElem elements ((elements.length : ℤ) - 1) = some r)
    (hel : heapGet h r = some (.brush bid pts pth stk sz)) :
    drawMoveH env h elements x y =
      .ok (⟨h.objs.set r (.brush bid (pts ++ [(x, y)])
          (getSvgPathFromStroke (env.getStroke (pts ++ [(x, y)]))) stk sz)⟩,
        elements) ∧
    ∀ r2, r2 ≠ r →
      heapGet (⟨h.objs.set r (.brush bid (pts ++ [(x, y)])
          (getSvgPathFromStroke (env.getStroke (pts ++ [(x, y)]))) stk sz)⟩ :
        ElemHeap α) r2 = heapGet h r2 := by
  constructor
  · simp only [drawMoveH, hr, hel, getUpdatedElementsH, Element.type,
      Element.x1?, Element.y1?, Element.text?, Element.stroke?, Element.fill?,
      Element.size?]
  · intro r2 hr2
    simp only [heapGet]
    exact List.get?_set_ne _ _ (Ne.symm hr2)

/-- Witness for C6 (amended): the concrete one-brush store. -/
theorem drawMoveH_brush_mutation_frame_witness :
    drawMoveH qEnv ⟨[sampleBrush]⟩ [0] 1 1 =
      .ok (⟨[Element.brush 0 [(0, 0), (1, 1)]
          (getSvgPathFromStroke (qEnv.getStroke [(0, 0), (1, 1)])) none none]⟩,
        [0]) := by
  have h := drawMoveH_brush_mutation_frame qEnv ⟨[sampleBrush]⟩ [0] 1 1 0 0
    [(0, 0)] [] none none rfl rfl
  exact h.1

/-! ### C7 -/

/-- Evaluation of the arrowhead geometry for an arrow from (0,0) to (10,0)
with arrowhead length 5, against the real `Math` functions (`atan2`
modelled as the argument of the complex number `x + y i`): both tips sit
at `x = 10 − 5·(√3/2)`, at heights `±5/2`. -/
theorem arrowHeads_horizontal_eval :
    getArrowHeadsCoordinates
      { sqrt := Real.sqrt, cos := Real.cos, sin := Real.sin,
        atan2 := fun y x => Complex.arg ⟨x, y⟩, pi := Real.pi,
        getStroke := fun l => l, measureTextWidth := fun _ _ => 0,
        parseIntNum := fun _ => 0, isPointInPath := fun _ _ _ => false,
        lineThreshold := 1, arrowLength := 20 } 0 0 10 0 5 =
    ⟨10 - 5 * (Real.sqrt 3 / 2), 5 * (1 / 2),
     10 - 5 * (Real.sqrt 3 / 2), -(5 * (1 / 2))⟩ := by
  have harg : Complex.arg ⟨10 - 0, 0 - 0⟩ = 0 := by
    have h10 : (⟨10 - 0, 0 - 0⟩ : ℂ) = ((10 : ℝ) : ℂ) := by
      apply Complex.ext <;> norm_num
    rw [h10]
    exact Complex.arg_ofReal_of_nonneg (by norm_num)
  have hneg : (0 : ℝ) - Real.pi / 6 = -(Real.pi / 6) := zero_sub (Real.pi / 6)
  have hpos : (0 : ℝ) + Real.pi / 6 = Real.pi / 6 := zero_add (Real.pi / 6)
  simp only [getArrowHeadsCoordinates, harg, hneg, hpos, Real.cos_neg,
    Real.sin_neg, Real.cos_pi_div_six, Real.sin_pi_div_six,
    ArrowHeads.mk.injEq]
  refine ⟨by ring_nf, by ring_nf, by ring_nf, by ring_nf⟩

/-- Counterexample to C7: the claimed tip coordinates
`(10 − 5cos(150°), −5sin(150°))` and `(10 − 5cos(210°), −5sin(210°))`
place both tips at `x = 10 + 5·(√3/2)`, beyond the arrow's endpoint; the
code places both tips at `x = 10 − 5·(√3/2)`, so neither computed tip
matches either claimed tip. -/
theorem arrowHeads_claimed_tips_false :
    (getArrowHeadsCoordinates
      { sqrt := Real.sqrt, cos := Real.cos, sin := Real.sin,
        atan2 := fun y x => Complex.arg ⟨x, y⟩, pi := Real.pi,
        getStroke := fun l => l, measureTextWidth := fun _ _ => 0,
        parseIntNum := fun _ => 0, isPointInPath := fun _ _ _ => false,
        lineThreshold := 1, arrowLength := 20 } 0 0 10 0 5).x3 ≠
      10 - 5 * Real.cos (5 * Real.pi / 6) ∧
    (getArrowHeadsCoordinates
      { sqrt := Real.sqrt, cos := Real.cos, sin := Real.sin,
        atan2 := fun y x => Complex.arg ⟨x, y⟩, pi := Real.pi,
        getStroke := fun l => l, measureTextWidth := fun _ _ => 0,
        parseIntNum := fun _ => 0, isPointInPath := fun _ _ _ => false,
        lineThreshold := 1, arrowLength := 20 } 0 0 10 0 5).x3 ≠
      10 - 5 * Real.cos (7 * Real.pi / 6) ∧
    (getArrowHeadsCoordinates
      { sqrt := Real.sqrt, cos := Real.cos, sin := Real.sin,
        atan2 := fun y x => Complex.arg ⟨x, y⟩, pi := Real.pi,
        getStroke := fun l => l, measureTextWidth := fun _ _ => 0,
        parseIntNum := fun _ => 0, isPointInPath := fun _ _ _ => false,
        lineThreshold := 1, arrowLength := 20 } 0 0 10 0 5).x4 ≠
      10 - 5 * Real.cos (5 * Real.pi / 6) ∧
    (getArrowHeadsCoordinates
      { sqrt := Real.sqrt, cos := Real.cos, sin := Real.sin,
        atan2 := fun y x => Complex.arg ⟨x, y⟩, pi := Real.pi,
        getStroke := fun l => l, measureTextWidth := fun _ _ => 0,
        parseIntNum := fun _ => 0, isPointInPath := fun _ _ _ => false,
        lineThreshold := 1, arrowLength := 20 } 0 0 10 0 5).x4 ≠
      10 - 5 * Real.cos (7 * Real.pi / 6) := by
  rw [arrowHeads_horizontal_eval]
  have h3 : 0 < Real.sqrt 3 := Real.sqrt_pos.mpr (by norm_num)
  have hc5 : Real.cos (5 * Real.pi / 6) = -(Real.sqrt 3 / 2) := by
    have h : 5 * Real.pi / 6 = Real.pi - Real.pi / 6 := by ring
    rw [h, Real.cos_pi_sub, Real.cos_pi_div_six]
  have hc7 : Real.cos (7 * Real.pi / 6) = -(Real.sqrt 3 / 2) := by
    have h : 7 * Real.pi / 6 = Real.pi / 6 + Real.pi := by ring
    rw [h, Real.cos_add_pi, Real.cos_pi_div_six]
  simp only [hc5, hc7]
  refine ⟨?_, ?_, ?_, ?_⟩ <;> intro hcon <;> nlinarith

/-- C7 (amended).  The tips are rotated ±30° from the *reversed* line
direction as the spec's prose says, i.e. at
`(10 + 5cos(150°), 5sin(150°))` and `(10 + 5cos(210°), 5sin(210°))`
(the claim's formulas `(10 − 5cos(150°), −5sin(150°))`,
`(10 − 5cos(210°), −5sin(210°))` have the signs flipped). -/
theorem arrowHeads_horizontal_arrow_tips :
    getArrowHeadsCoordinates
      { sqrt := Real.sqrt, cos := Real.cos, sin := Real.sin,
        atan2 := fun y x => Complex.arg ⟨x, y⟩, pi := Real.pi,
        getStroke := fun l => l, measureTextWidth := fun _ _ => 0,
        parseIntNum := fun _ => 0, isPointInPath := fun _ _ _ => false,
        lineThreshold := 1, arrowLength := 20 } 0 0 10 0 5 =
    ⟨10 + 5 * Real.cos (5 * Real.pi / 6), 5 * Real.sin (5 * Real.pi / 6),
     10 + 5 * Real.cos (7 * Real.pi / 6), 5 * Real.sin (7 * Real.pi / 6)⟩ := by
  rw [arrowHeads_horizontal_eval]
  have hc5 : Real.cos (5 * Real.pi / 6) = -(Real.sqrt 3 / 2) := by
    have h : 5 * Real.pi / 6 = Real.pi - Real.pi / 6 := by ring
    rw [h, Real.cos_pi_sub, Real.cos_pi_div_six]
  have hs5 : Real.sin (5 * Real.pi / 6) = 1 / 2 := by
    have h : 5 * Real.pi / 6 = Real.pi - Real.pi / 6 := by ring
    rw [h, Real.sin_pi_sub, Real.sin_pi_div_six]
  have hc7 : Real.cos (7 * Real.pi / 6) = -(Real.sqrt 3 / 2) := by
    have h : 7 * Real.pi / 6 = Real.pi / 6 + Real.pi := by ring
    rw [h, Real.cos_add_pi, Real.cos_pi_div_six]
  have hs7 : Real.sin (7 * Real.pi / 6) = -(1 / 2) := by
    have h : 7 * Real.pi / 6 = Real.pi / 6 + Real.pi := by ring
    rw [h, Real.sin_add_pi, Real.sin_pi_div_six]
  simp only [hc5, hs5, hc7, hs7, ArrowHeads.mk.injEq]
  refine ⟨by ring_nf, by ring_nf, by ring_nf, by ring_nf⟩

/-! ### C8 -/

/-- C8.  In every state reachable from the initial state the history index
satisfies `0 ≤ index < history.length`, and every dispatch preserves the
bound. -/
theorem history_index_in_bounds (env : JsEnv α) :
    (∀ acts : List (Action α), IndexInBounds (runActions env acts)) ∧
    (∀ (s : BoardState α) (a : Action α), IndexInBounds s →
      IndexInBounds (applyAction env s a)) := by
  constructor
  · intro acts
    exact indexInBounds_foldl env acts initialBoardState indexInBounds_initial
  · intro s a hs
    exact indexInBounds_applyAction env s a hs

/-- Witness for C8: the bound after a concrete run, and preservation at a
concrete state. -/
theorem history_index_in_bounds_witness :
    IndexInBounds (runActions qEnv [Action.drawUp, Action.undo]) ∧
    IndexInBounds (applyAction qEnv initialBoardState (Action.redo)) :=
  ⟨(history_index_in_bounds qEnv).1 [Action.drawUp, Action.undo],
   (history_index_in_bounds qEnv).2 initialBoardState Action.redo
     (by constructor <;> decide)⟩

/-! ### C9 -/

/-- C9.  Erasing at a point whose hit-test matches no element returns a
state with the same elements (by value — in fact the same state object)
and does not grow the history. -/
theorem erase_miss_leaves_state_unchanged (env : JsEnv α) (s : BoardState α)
    (x y : α) (hmiss : ∀ el ∈ s.elements, isPointNearElement env el x y = false) :
    ∃ s2, boardReducer env s (.erase x y) = .ok s2 ∧
      s2.elements = s.elements ∧ s2.history.length = s.history.length := by
  have hfilter :
      s.elements.filter (fun ele => !(isPointNearElement env ele x y)) = s.elements := by
    apply List.filter_eq_self.mpr
    intro a ha
    simp [hmiss a ha]
  refine ⟨s, ?_, rfl, rfl⟩
  simp [boardReducer, hfilter]

/-- Witness for C9: erasing on the initial (empty) board. -/
theorem erase_miss_leaves_state_unchanged_witness :
    ∃ s2, boardReducer qEnv initialBoardState (Action.erase 0 0) = .ok s2 ∧
      s2.elements = (initialBoardState (α := ℚ)).elements ∧
      s2.history.length = (initialBoardState (α := ℚ)).history.length :=
  erase_miss_leaves_state_unchanged qEnv initialBoardState 0 0
    (by simp [initialBoardState])

/-! ### C10 -/

/-- Counterexample to C10: after a single pointer-down from the initial
state the index is 0, so "dispatching Undo index-many times" dispatches
nothing, yet the element collection holds the freshly created element and
is not empty. -/
theorem undo_index_times_not_always_empty :
    (runActions qEnv [Action.drawDown 0 0 none none none]).index = 0 ∧
    undoN qEnv (runActions qEnv [Action.drawDown 0 0 none none none]).index.toNat
        (runActions qEnv [Action.drawDown 0 0 none none none]) =
      runActions qEnv [Action.drawDown 0 0 none none none] ∧
    (runActions qEnv [Action.drawDown 0 0 none none none]).elements ≠ [] := by
  decide

/-- C10 (amended).  In every reachable state `history[0]` is the empty
collection, and dispatching Undo `index`-many times yields an empty
element collection provided at least one undo is dispatched
(`0 < index`); with `index = 0` the live collection may hold an
uncommitted element. -/
theorem history_head_empty_and_undo_to_empty (env : JsEnv α)
    (acts : List (Action α)) :
    jsGetElem (runActions env acts).history 0 = some [] ∧
    (0 < (runActions env acts).index →
      (undoN env (runActions env acts).index.toNat (runActions env acts)).elements
        = []) := by
  obtain ⟨hb, hh⟩ := reachInv_foldl env acts initialBoardState
    indexInBounds_initial headEmpty_initial
  exact ⟨hh, fun hpos => undoN_index_toNat_empty env hb hh hpos⟩

/-- Witness for C10 (amended): draw-down then draw-up gives index 1; one
undo empties the collection. -/
theorem history_head_empty_and_undo_to_empty_witness :
    (undoN qEnv
      (runActions qEnv [Action.drawDown 0 0 none none none, Action.drawUp]).index.toNat
      (runActions qEnv [Action.drawDown 0 0 none none none, Action.drawUp])).elements
      = [] :=
  (history_head_empty_and_undo_to_empty qEnv
    [Action.drawDown 0 0 none none none, Action.drawUp]).2 (by decide)

end Claims

end Whiteboard
